import Mathlib

/-!
Verification of `whoisit`, an RFC 1413 identd responder (src/main.rs).

The shallow embedding models strings as `List Char`.  Pure functions of the
source (`parse_query`, `search_for_port`, the `lsof` target construction in
`run_lsof`) become Lean functions; the session handler `handle_client`
becomes a function from the outcomes of its effectful steps (the line read,
the `lsof` invocation) to the list of response lines it sends.
-/

namespace Whoisit

/-- ASCII whitespace recognised by `str::trim` / `char::is_whitespace`
(restricted to the ASCII range relevant here). -/
def isWS (c : Char) : Bool :=
  c = ' ' || c = '\t' || c = '\n' || c = '\r' || c = '\x0b' || c = '\x0c'

/-- Decimal digit value of a character. -/
def digitVal (c : Char) : Nat := c.toNat - 48

/-- Character for a decimal digit. -/
def digitChar (n : Nat) : Char := Char.ofNat (48 + n)

/-- Recursion core for decimal rendering; `fuel` bounds the recursion
depth and `n + 1` always suffices. -/
def natToCharsAux : Nat → Nat → List Char → List Char
  | 0, _, acc => acc
  | fuel + 1, n, acc =>
    if n < 10 then digitChar n :: acc
    else natToCharsAux fuel (n / 10) (digitChar (n % 10) :: acc)

/-- Decimal rendering of a natural number, as produced by Rust's `Display`
for unsigned integers (used by `format!("{}", n)`). -/
def natToChars (n : Nat) : List Char := natToCharsAux (n + 1) n []

/-- Accumulate a list of decimal digits into a value (`foldl`). -/
def digitsVal (l : List Char) : Nat :=
  l.foldl (fun a c => a * 10 + digitVal c) 0

/-- Rust `u16::from_str` (`"80".parse::<u16>()`): an optional leading `+`
followed by one or more ASCII digits, value at most 65535; anything else
(including an empty string or surrounding whitespace) fails. -/
def parseU16 (s : List Char) : Option Nat :=
  let digits := if s.head? = some '+' then s.tail else s
  if digits ≠ [] && digits.all Char.isDigit && digitsVal digits < 65536 then
    some (digitsVal digits)
  else
    none

/-- Rust `str::split(sep)` for a one-character separator: fields between
occurrences of the separator, in order; `n` separators give `n + 1` fields. -/
def splitOnChar (sep : Char) : List Char → List (List Char)
  | [] => [[]]
  | c :: cs =>
    if c = sep then [] :: splitOnChar sep cs
    else
      match splitOnChar sep cs with
      | [] => [[c]]
      | g :: gs => (c :: g) :: gs

/-- Rust `str::contains(&t)`: `t` occurs as a contiguous substring. -/
def containsSub (t : List Char) : List Char → Bool
  | [] => t.isEmpty
  | c :: cs => t.isPrefixOf (c :: cs) || containsSub t cs

/-- Rust `str::trim`: remove leading and trailing whitespace. -/
def trim (l : List Char) : List Char :=
  ((l.dropWhile isWS).reverse.dropWhile isWS).reverse

/-- Errors raised by `parse_query`: `IdentError::InvalidPort` for a wrong
field count, and `std::num::ParseIntError` (propagated by `?` from
`str::parse`) for a field that does not parse as a `u16`. -/
inductive QueryError where
  | invalidPort
  | parseIntError
deriving DecidableEq, Repr

/-- `parse_query` (src/main.rs): split the query on `,`, trim each field,
require exactly two fields, and parse each as a `u16`. -/
def parse_query (query : List Char) : Except QueryError (Nat × Nat) :=
  let ports := (splitOnChar ',' query).map trim
  match ports with
  | [a, b] =>
    match parseU16 a, parseU16 b with
    | some x, some y => .ok (x, y)
    | _, _ => .error .parseIntError
  | _ => .error .invalidPort

/-- The substring `format!(":{}->", local_port)` searched for by
`search_for_port`. -/
def targetOf (local_port : Nat) : List Char :=
  ':' :: natToChars local_port ++ ['-', '>']

/-- The lines delivered by repeated `BufRead::read_line` over the `lsof`
output, without their `\n` terminators (a possible final empty line is a
by-product of a trailing `\n` and is ignored by the scan, matching
`read_line` returning `Ok(0)` there). -/
def linesOf (output : List Char) : List (List Char) :=
  splitOnChar '\n' output

/-- The scanning loop of `search_for_port`: `cu` is `current_user`.  An `L`
line overwrites `cu` with the trimmed remainder; an `n` line containing the
target stops the scan and returns `cu`; every other line is skipped; the
end of input yields `none` (`matching_user` was never set). -/
def scanLines (target : List Char) : List (List Char) → Option (List Char) → Option (List Char)
  | [], _ => none
  | l :: rest, cu =>
    if l.head? = some 'L' then scanLines target rest (some (trim l.tail))
    else if l.head? = some 'n' then
      if containsSub target l then cu
      else scanLines target rest cu
    else scanLines target rest cu

/-- `search_for_port` (src/main.rs): scan the `lsof` output line by line
for the first network-name line mentioning `:{local_port}->` and return
the username given by the most recent login line. -/
def search_for_port (local_port : Nat) (lsof_output : List Char) : Option (List Char) :=
  scanLines (targetOf local_port) (linesOf lsof_output) none

/-- Shorthand: the character list of a string literal. -/
def str (s : String) : List Char := s.data

/-! ### The `lsof` invocation (`run_lsof`) -/

/-- IP addresses: an IPv4 address as four octets, or an IPv6 address as
eight 16-bit segments (`Ipv6Addr::segments()`). -/
inductive IpAddr where
  | v4 (a b c d : Nat)
  | v6 (s0 s1 s2 s3 s4 s5 s6 s7 : Nat)
deriving DecidableEq, Repr

/-- `Ipv6Addr::to_ipv4`: converts IPv4-compatible (`::a.b.c.d`) and
IPv4-mapped (`::ffff:a.b.c.d`) addresses, splitting the last two segments
into four octets. -/
def toIpv4 (s0 s1 s2 s3 s4 s5 s6 s7 : Nat) : Option (Nat × Nat × Nat × Nat) :=
  if s0 = 0 ∧ s1 = 0 ∧ s2 = 0 ∧ s3 = 0 ∧ s4 = 0 ∧ (s5 = 0 ∨ s5 = 0xffff) then
    some (s6 / 256, s6 % 256, s7 / 256, s7 % 256)
  else none

/-- Rust `Display` for `Ipv4Addr`: dotted decimal quad. -/
def displayV4 (a b c d : Nat) : List Char :=
  natToChars a ++ '.' :: natToChars b ++ '.' :: natToChars c ++ '.' :: natToChars d

/-- Lowercase hexadecimal digit character. -/
def hexDigitChar (n : Nat) : Char :=
  if n < 10 then digitChar n else Char.ofNat (87 + n)

/-- Recursion core for hexadecimal rendering, fuelled like
`natToCharsAux`. -/
def natToHexCharsAux : Nat → Nat → List Char → List Char
  | 0, _, acc => acc
  | fuel + 1, n, acc =>
    if n < 16 then hexDigitChar n :: acc
    else natToHexCharsAux fuel (n / 16) (hexDigitChar (n % 16) :: acc)

/-- Lowercase hexadecimal rendering without leading zeros
(Rust `write!("{:x}", seg)`). -/
def natToHexChars (n : Nat) : List Char := natToHexCharsAux (n + 1) n []

/-- The leftmost longest run of zero segments, as `(start, length)`,
mirroring the scanning loop in `Ipv6Addr`'s `Display` impl. -/
def longestZeroRun (l : List Nat) : Nat × Nat :=
  let st := l.foldl
    (fun (st : Nat × Nat × Nat × Nat × Nat) seg =>
      let (i, longAt, longLen, curAt, curLen) := st
      if seg = 0 then
        let curAt' := if curLen = 0 then i else curAt
        let curLen' := curLen + 1
        if curLen' > longLen then (i + 1, curAt', curLen', curAt', curLen')
        else (i + 1, longAt, longLen, curAt', curLen')
      else (i + 1, longAt, longLen, 0, 0))
    (0, 0, 0, 0, 0)
  (st.2.1, st.2.2.1)

/-- Rust `Display` for `Ipv6Addr` (as of the std library contemporary with
this source): special forms `::`, `::1`, IPv4-compatible and IPv4-mapped
addresses, otherwise hex groups with the longest zero run (of length at
least two) compressed to `::`. -/
def displayV6 (s0 s1 s2 s3 s4 s5 s6 s7 : Nat) : List Char :=
  if s0 = 0 ∧ s1 = 0 ∧ s2 = 0 ∧ s3 = 0 ∧ s4 = 0 ∧ s5 = 0 ∧ s6 = 0 ∧ s7 = 0 then
    str "::"
  else if s0 = 0 ∧ s1 = 0 ∧ s2 = 0 ∧ s3 = 0 ∧ s4 = 0 ∧ s5 = 0 ∧ s6 = 0 ∧ s7 = 1 then
    str "::1"
  else if s0 = 0 ∧ s1 = 0 ∧ s2 = 0 ∧ s3 = 0 ∧ s4 = 0 ∧ s5 = 0 then
    str "::" ++ displayV4 (s6 / 256) (s6 % 256) (s7 / 256) (s7 % 256)
  else if s0 = 0 ∧ s1 = 0 ∧ s2 = 0 ∧ s3 = 0 ∧ s4 = 0 ∧ s5 = 0xffff then
    str "::ffff:" ++ displayV4 (s6 / 256) (s6 % 256) (s7 / 256) (s7 % 256)
  else
    let segs := [s0, s1, s2, s3, s4, s5, s6, s7]
    let (at0, len) := longestZeroRun segs
    if len > 1 then
      List.intercalate [':'] ((segs.take at0).map natToHexChars) ++ str "::" ++
        List.intercalate [':'] ((segs.drop (at0 + len)).map natToHexChars)
    else
      List.intercalate [':'] (segs.map natToHexChars)

/-- The target argument built by `run_lsof` (src/main.rs): an IPv4 target
`4TCP@<ip>:<port>` for IPv4 peers and for IPv4-mapped IPv6 peers
(unwrapping the embedded IPv4 address via `to_ipv4`, guarded by the first
six segments being `[0, 0, 0, 0, 0, 0xffff]`), otherwise an IPv6 target
`6TCP@[<ip>]:<port>`. -/
def lsof_target_arg (remote_port : Nat) (remote_host : IpAddr) : List Char :=
  match remote_host with
  | .v4 a b c d =>
    str "4TCP@" ++ displayV4 a b c d ++ ':' :: natToChars remote_port
  | .v6 s0 s1 s2 s3 s4 s5 s6 s7 =>
    match toIpv4 s0 s1 s2 s3 s4 s5 s6 s7 with
    | some (a, b, c, d) =>
      if s0 = 0 ∧ s1 = 0 ∧ s2 = 0 ∧ s3 = 0 ∧ s4 = 0 ∧ s5 = 0xffff then
        str "4TCP@" ++ displayV4 a b c d ++ ':' :: natToChars remote_port
      else
        str "6TCP@[" ++ displayV6 s0 s1 s2 s3 s4 s5 s6 s7 ++ str "]:" ++
          natToChars remote_port
    | none =>
      str "6TCP@[" ++ displayV6 s0 s1 s2 s3 s4 s5 s6 s7 ++ str "]:" ++
        natToChars remote_port

/-! ### The session handler (`handle_client`) -/

/-- Outcome of reading the single query line from the framed socket
(`client.next().await`): either one decoded line, or no line — the peer
closed the stream, the framing failed (line over the codec's 1024-byte
limit, invalid UTF-8), or any other read error.  The source treats every
non-`Some(Ok(q))` outcome identically. -/
inductive ReadResult where
  | line (q : List Char)
  | noLine
deriving DecidableEq, Repr

/-- The error a session run can end with, mirroring `IdentError::NoQuery`,
the error propagated out of `parse_query`, and the `?`-propagated failure
of `run_lsof`. -/
inductive SessionError where
  | noQuery
  | invalidQuery (e : QueryError)
  | lookupFailed
deriving DecidableEq, Repr

/-- `handle_client` (src/main.rs), as a function of the outcomes of its two
effectful inputs: the line read from the client and the result of the
`run_lsof` invocation.  Returns the list of lines passed to `client.send`
(in order; the codec appends the terminating `\n`) and the session's
result. -/
def handle_client (read : ReadResult) (lsofResult : Except Unit (List Char)) :
    List (List Char) × Except SessionError Unit :=
  match read with
  | .noLine => ([], .error .noQuery)
  | .line query =>
    match parse_query query with
    | .error e => ([query ++ str " : ERROR : INVALID-PORT\r"], .error (.invalidQuery e))
    | .ok (local_port, _remote_port) =>
      match lsofResult with
      | .error _ => ([], .error .lookupFailed)
      | .ok lsof_output =>
        match search_for_port local_port lsof_output with
        | some user =>
          ([query ++ str " : USERID : UNIX : " ++ user ++ ['\r']], .ok ())
        | none =>
          ([query ++ str " : ERROR : NO-USER\r"], .ok ())

/-- Modelled from the spec: the line framing applied to the client's raw
bytes (`Framed` with `LinesCodec::new_with_max_length(1024)` is library
code, not part of this repository).  Per the spec: the terminator is CRLF
with bare LF also accepted; a line longer than 1024 bytes is a framing
error; a stream closed before any terminator yields no parsable line.
Both failures produce `ReadResult.noLine`. -/
def readQuery (raw : List Char) : ReadResult :=
  let pre := raw.takeWhile (fun c => c ≠ '\n')
  if pre.length = raw.length then .noLine
  else
    let line := if pre.getLast? = some '\r' then pre.dropLast else pre
    if line.length > 1024 then .noLine else .line line

/-! ### Specification-side definitions

These restate the spec's vocabulary, to be compared with the definitions
translated from the source. -/

/-- A login-field line: first character is the `L` tag. -/
def isLoginLine (l : List Char) : Bool := l.head? = some 'L'

/-- The username a login-field line sets: the remainder after the tag,
trimmed. -/
def loginUser (l : List Char) : List Char := trim l.tail

/-- A network-name line containing the target substring. -/
def isMatchingNetLine (target l : List Char) : Bool :=
  l.head? = some 'n' && containsSub target l

/-- The username set by the nearest preceding login-field line: the user of
the last login line of the list, if any. -/
def lastLoginUser : List (List Char) → Option (List Char)
  | [] => none
  | l :: rest =>
    match lastLoginUser rest with
    | some u => some u
    | none => if isLoginLine l then some (loginUser l) else none

/-- `find_owner` as the spec words it: the username attributed by the
nearest preceding login-field line to the first network-name line
containing the target, and `none` when no network-name line contains the
target. -/
def find_owner_spec (target : List Char) (ls : List (List Char)) : Option (List Char) :=
  if (ls.takeWhile (fun l => !(isMatchingNetLine target l))).length = ls.length then none
  else lastLoginUser (ls.takeWhile (fun l => !(isMatchingNetLine target l)))

/-- A decimal unsigned 16-bit integer with no sign, as the claim words it:
nonempty, all ASCII digits, value at most 65535. -/
def isPlainU16 (l : List Char) : Bool :=
  !l.isEmpty && l.all Char.isDigit && digitsVal l ≤ 65535

/-- What Rust `u16::from_str` actually accepts: an optional leading `+`,
then one or more ASCII digits, value at most 65535. -/
def isOptPlusU16 (l : List Char) : Bool :=
  let ds := if l.head? = some '+' then l.tail else l
  !ds.isEmpty && ds.all Char.isDigit && digitsVal ds ≤ 65535

/-- The one response line the spec prescribes for a query that yields a
response: `INVALID-PORT` on a parse failure, otherwise `USERID : UNIX`
with the matched username, or `NO-USER` when the matcher finds none. -/
def expectedResponse (query lsof_output : List Char) : List Char :=
  match parse_query query with
  | .error _ => query ++ str " : ERROR : INVALID-PORT\r"
  | .ok (local_port, _) =>
    match search_for_port local_port lsof_output with
    | some user => query ++ str " : USERID : UNIX : " ++ user ++ ['\r']
    | none => query ++ str " : ERROR : NO-USER\r"

/-! ### Helper lemmas -/

theorem lastLoginUser_cons_notLogin (l : List Char) (ls : List (List Char))
    (h : isLoginLine l = false) : lastLoginUser (l :: ls) = lastLoginUser ls := by
  simp only [lastLoginUser, h]
  cases lastLoginUser ls <;> simp

theorem scanLines_characterization (target : List Char) (ls : List (List Char))
    (cu : Option (List Char)) :
    scanLines target ls cu =
      if (ls.takeWhile (fun l => !(isMatchingNetLine target l))).length = ls.length
      then none
      else
        match lastLoginUser (ls.takeWhile (fun l => !(isMatchingNetLine target l))) with
        | some u => some u
        | none => cu := by
  induction ls generalizing cu with
  | nil => simp [scanLines]
  | cons l rest ih =>
    by_cases hm : isMatchingNetLine target l = true
    · have hn : l.head? = some 'n' := by
        simp only [isMatchingNetLine, Bool.and_eq_true, decide_eq_true_eq] at hm
        exact hm.1
      have hc : containsSub target l = true := by
        simp only [isMatchingNetLine, Bool.and_eq_true] at hm
        exact hm.2
      simp [scanLines, hn, hc, List.takeWhile_cons, hm, lastLoginUser]
    · have hm' : isMatchingNetLine target l = false := by
        cases h : isMatchingNetLine target l
        · rfl
        · exact absurd h hm
      have htw : (l :: rest).takeWhile (fun l => !(isMatchingNetLine target l)) =
          l :: rest.takeWhile (fun l => !(isMatchingNetLine target l)) := by
        simp [List.takeWhile_cons, hm']
      by_cases hL : l.head? = some 'L'
      · have hstep : scanLines target (l :: rest) cu =
            scanLines target rest (some (trim l.tail)) := by
          simp [scanLines, hL]
        have hlog : isLoginLine l = true := by simp [isLoginLine, hL]
        rw [hstep, ih, htw]
        by_cases hlen :
            (rest.takeWhile (fun l => !(isMatchingNetLine target l))).length = rest.length
        · simp [hlen]
        · have h1 : ¬ ((l :: rest.takeWhile (fun l => !(isMatchingNetLine target l))).length
              = (l :: rest).length) := by
            simp only [List.length_cons]; omega
          rw [if_neg hlen, if_neg h1]
          simp only [lastLoginUser, hlog]
          cases lastLoginUser (rest.takeWhile (fun l => !(isMatchingNetLine target l))) <;>
            simp [loginUser]
      · have hstep : scanLines target (l :: rest) cu = scanLines target rest cu := by
          by_cases hn : l.head? = some 'n'
          · have hc : containsSub target l = false := by
              cases h : containsSub target l
              · rfl
              · exact absurd (by simp [isMatchingNetLine, hn, h]) hm
            simp [scanLines, hL, hn, hc]
          · simp [scanLines, hL, hn]
        have hlog : isLoginLine l = false := by
          simp [isLoginLine, hL]
        rw [hstep, ih, htw, lastLoginUser_cons_notLogin l _ hlog]
        by_cases hlen :
            (rest.takeWhile (fun l => !(isMatchingNetLine target l))).length = rest.length
        · simp [hlen]
        · have h1 : ¬ ((l :: rest.takeWhile (fun l => !(isMatchingNetLine target l))).length
              = (l :: rest).length) := by
            simp only [List.length_cons]; omega
          rw [if_neg hlen, if_neg h1]

/-- `search_for_port` refines the spec's description of the owner matcher. -/
theorem search_for_port_eq_spec (local_port : Nat) (output : List Char) :
    search_for_port local_port output =
      find_owner_spec (targetOf local_port) (linesOf output) := by
  rw [search_for_port, find_owner_spec, scanLines_characterization]
  by_cases hlen :
      ((linesOf output).takeWhile
        (fun l => !(isMatchingNetLine (targetOf local_port) l))).length
        = (linesOf output).length
  · simp [hlen]
  · rw [if_neg hlen, if_neg hlen]
    cases lastLoginUser ((linesOf output).takeWhile
        (fun l => !(isMatchingNetLine (targetOf local_port) l))) <;> simp

theorem takeWhile_all_true {α} (p : α → Bool) (l : List α) (h : ∀ x ∈ l, p x = true) :
    l.takeWhile p = l := by
  induction l with
  | nil => rfl
  | cons a l ih =>
    simp [List.takeWhile_cons, h a (by simp), ih (fun x hx => h x (by simp [hx]))]

theorem takeWhile_append_mid {α} (p : α → Bool) (pre post : List α) (m : α)
    (hpre : ∀ x ∈ pre, p x = true) (hm : p m = false) :
    (pre ++ m :: post).takeWhile p = pre := by
  induction pre with
  | nil => simp [List.takeWhile_cons, hm]
  | cons a pre ih =>
    simp [List.cons_append, List.takeWhile_cons, hpre a (by simp),
      ih (fun x hx => hpre x (by simp [hx]))]

theorem lastLoginUser_none (ls : List (List Char)) (h : ∀ l ∈ ls, isLoginLine l = false) :
    lastLoginUser ls = none := by
  induction ls with
  | nil => rfl
  | cons a ls ih =>
    rw [lastLoginUser_cons_notLogin a ls (h a (by simp))]
    exact ih (fun l hl => h l (by simp [hl]))

theorem scanLines_skip (target : List Char) (l : List Char) (hL : l.head? ≠ some 'L')
    (hn : l.head? ≠ some 'n') :
    ∀ (pre post : List (List Char)) (cu : Option (List Char)),
    scanLines target (pre ++ l :: post) cu = scanLines target (pre ++ post) cu := by
  intro pre
  induction pre with
  | nil =>
    intro post cu
    simp [scanLines, hL, hn]
  | cons a pre ih =>
    intro post cu
    simp only [List.cons_append]
    by_cases haL : a.head? = some 'L'
    · simp only [scanLines, if_pos haL]
      exact ih post _
    · by_cases han : a.head? = some 'n'
      · cases hac : containsSub target a
        · simp only [scanLines, if_neg haL, if_pos han, hac, Bool.false_eq_true, if_false]
          exact ih post _
        · simp [scanLines, haL, han, hac]
      · simp only [scanLines, if_neg haL, if_neg han]
        exact ih post _

theorem natToCharsAux_spec (n : Nat) : ∀ (fuel : Nat) (acc : List Char), n < fuel →
    natToCharsAux fuel n acc = natToChars n ++ acc := by
  induction n using Nat.strong_induction_on with
  | _ n ih =>
    intro fuel acc hfuel
    cases fuel with
    | zero => omega
    | succ f =>
      by_cases h10 : n < 10
      · simp [natToCharsAux, natToChars, h10]
      · have hdiv : n / 10 < n := Nat.div_lt_self (by omega) (by omega)
        simp only [natToCharsAux, if_neg h10]
        rw [ih (n / 10) hdiv f _ (by omega)]
        conv_rhs => rw [natToChars]
        simp only [natToCharsAux, if_neg h10]
        rw [ih (n / 10) hdiv n _ (by omega)]
        simp

theorem natToChars_unfold (n : Nat) :
    natToChars n =
      if n < 10 then [digitChar n] else natToChars (n / 10) ++ [digitChar (n % 10)] := by
  by_cases h10 : n < 10
  · simp [natToChars, natToCharsAux, h10]
  · have hdiv : n / 10 < n := Nat.div_lt_self (by omega) (by omega)
    rw [if_neg h10]
    conv_lhs => rw [natToChars]
    simp only [natToCharsAux, if_neg h10]
    exact natToCharsAux_spec (n / 10) n _ hdiv

theorem digitChar_lt_ten (n : Nat) (h : n < 10) :
    (digitChar n).isDigit = true ∧ digitVal (digitChar n) = n ∧ isWS (digitChar n) = false ∧
    digitChar n ≠ ',' ∧ digitChar n ≠ '+' := by
  interval_cases n <;> decide

theorem natToChars_mem (n : Nat) : ∀ c ∈ natToChars n, ∃ m, m < 10 ∧ c = digitChar m := by
  induction n using Nat.strong_induction_on with
  | _ n ih =>
    intro c hc
    rw [natToChars_unfold] at hc
    by_cases h10 : n < 10
    · rw [if_pos h10] at hc
      simp only [List.mem_singleton] at hc
      exact ⟨n, h10, hc⟩
    · rw [if_neg h10] at hc
      simp only [List.mem_append, List.mem_singleton] at hc
      rcases hc with hc | hc
      · exact ih (n / 10) (Nat.div_lt_self (by omega) (by omega)) c hc
      · exact ⟨n % 10, by omega, hc⟩

theorem natToChars_ne_nil (n : Nat) : natToChars n ≠ [] := by
  rw [natToChars_unfold]
  by_cases h10 : n < 10 <;> simp [h10]

theorem digitsVal_foldl (ys : List Char) : ∀ a : Nat,
    ys.foldl (fun a c => a * 10 + digitVal c) a = a * 10 ^ ys.length + digitsVal ys := by
  induction ys with
  | nil => intro a; simp [digitsVal]
  | cons c ys ih =>
    intro a
    have hys : digitsVal (c :: ys) = digitVal c * 10 ^ ys.length + digitsVal ys := by
      simp only [digitsVal, List.foldl_cons]
      rw [ih (0 * 10 + digitVal c)]
      simp only [digitsVal]
      ring
    simp only [List.foldl_cons, List.length_cons]
    rw [ih (a * 10 + digitVal c), hys]
    ring

theorem digitsVal_append (xs ys : List Char) :
    digitsVal (xs ++ ys) = digitsVal xs * 10 ^ ys.length + digitsVal ys := by
  simp only [digitsVal, List.foldl_append]
  exact digitsVal_foldl ys _

theorem digitsVal_natToChars (n : Nat) : digitsVal (natToChars n) = n := by
  induction n using Nat.strong_induction_on with
  | _ n ih =>
    rw [natToChars_unfold]
    by_cases h10 : n < 10
    · rw [if_pos h10]
      have h1 : digitsVal [digitChar n] = digitVal (digitChar n) := by simp [digitsVal]
      rw [h1, (digitChar_lt_ten n h10).2.1]
    · rw [if_neg h10, digitsVal_append,
        ih (n / 10) (Nat.div_lt_self (by omega) (by omega))]
      have h2 : digitsVal [digitChar (n % 10)] = n % 10 := by
        have := (digitChar_lt_ten (n % 10) (by omega)).2.1
        simp [digitsVal, this]
      rw [h2]
      have h3 : (10 : Nat) ^ ([digitChar (n % 10)]).length = 10 := by simp
      rw [h3]
      omega

theorem parseU16_natToChars (n : Nat) (h : n < 65536) :
    parseU16 (natToChars n) = some n := by
  have hne := natToChars_ne_nil n
  have hd : ∀ c ∈ natToChars n, c.isDigit = true := fun c hc => by
    obtain ⟨m, hm, rfl⟩ := natToChars_mem n c hc
    exact (digitChar_lt_ten m hm).1
  have hhead : ¬ ((natToChars n).head? = some '+') := by
    cases hcs : natToChars n with
    | nil => exact absurd hcs hne
    | cons c cs =>
      simp only [List.head?_cons]
      intro hEq
      injection hEq with hEq
      have hcmem : c ∈ natToChars n := by rw [hcs]; simp
      obtain ⟨m, hm, hc⟩ := natToChars_mem n c hcmem
      rw [hc] at hEq
      exact (digitChar_lt_ten m hm).2.2.2.2 hEq
  have hall : (natToChars n).all Char.isDigit = true := List.all_eq_true.mpr hd
  simp only [parseU16, if_neg hhead]
  simp [hne, hall, digitsVal_natToChars, h]

theorem splitOnChar_not_mem (sep : Char) (l : List Char) (h : sep ∉ l) :
    splitOnChar sep l = [l] := by
  induction l with
  | nil => rfl
  | cons c cs ih =>
    have hc : ¬ (c = sep) := fun hEq => h (by simp [hEq])
    have hcs : sep ∉ cs := fun hm => h (by simp [hm])
    simp only [splitOnChar, if_neg hc, ih hcs]

theorem splitOnChar_append (sep : Char) (l1 l2 : List Char) (h : sep ∉ l1) :
    splitOnChar sep (l1 ++ sep :: l2) = l1 :: splitOnChar sep l2 := by
  induction l1 with
  | nil => simp [splitOnChar]
  | cons c cs ih =>
    have hc : ¬ (c = sep) := fun hEq => h (by simp [hEq])
    have ih' := ih (fun hm => h (by simp [hm]))
    simp only [List.cons_append, splitOnChar, if_neg hc]
    rw [show splitOnChar sep (cs.append (sep :: l2)) = cs :: splitOnChar sep l2 from ih']

theorem dropWhile_append_all {α} (p : α → Bool) (a b : List α) (h : ∀ x ∈ a, p x = true) :
    (a ++ b).dropWhile p = b.dropWhile p := by
  induction a with
  | nil => rfl
  | cons x a ih =>
    simp [List.dropWhile_cons, h x (by simp), ih (fun y hy => h y (by simp [hy]))]

theorem dropWhile_all_false {α} (p : α → Bool) (a : List α) (h : ∀ x ∈ a, p x = false) :
    a.dropWhile p = a := by
  cases a with
  | nil => rfl
  | cons x a => simp [List.dropWhile_cons, h x (by simp)]

theorem dropWhile_all_true {α} (p : α → Bool) (a : List α) (h : ∀ x ∈ a, p x = true) :
    a.dropWhile p = [] := by
  induction a with
  | nil => rfl
  | cons x a ih =>
    simp [List.dropWhile_cons, h x (by simp), ih (fun y hy => h y (by simp [hy]))]

theorem trim_all_ws (w : List Char) (h : ∀ c ∈ w, isWS c = true) : trim w = [] := by
  simp [trim, dropWhile_all_true isWS w h]

theorem trim_sandwich (w1 mid w2 : List Char)
    (h1 : ∀ c ∈ w1, isWS c = true) (h2 : ∀ c ∈ w2, isWS c = true)
    (hmid : ∀ c ∈ mid, isWS c = false) :
    trim (w1 ++ mid ++ w2) = mid := by
  rcases mid with _ | ⟨c, cs⟩
  · have hall : ∀ x ∈ w1 ++ [] ++ w2, isWS x = true := by
      intro x hx
      simp only [List.append_nil, List.mem_append] at hx
      rcases hx with hx | hx
      · exact h1 x hx
      · exact h2 x hx
    exact trim_all_ws _ hall
  · have hch : isWS c = false := hmid c (by simp)
    have e2 : ((c :: cs) ++ w2).dropWhile isWS = (c :: cs) ++ w2 := by
      simp [List.cons_append, List.dropWhile_cons, hch]
    have e3 : (w1 ++ (c :: cs) ++ w2).dropWhile isWS = (c :: cs) ++ w2 := by
      rw [List.append_assoc, dropWhile_append_all _ w1 _ h1, e2]
    simp only [trim, e3, List.reverse_append]
    rw [dropWhile_append_all _ w2.reverse _ (fun x hx => h2 x (List.mem_reverse.mp hx)),
      dropWhile_all_false _ _ (fun x hx => hmid x (List.mem_reverse.mp hx)),
      List.reverse_reverse]

theorem isWS_ne_comma {c : Char} (h : isWS c = true) : ¬ (c = ',') := by
  intro hEq
  rw [hEq] at h
  exact absurd h (by decide)

theorem parseU16_none_iff (l : List Char) :
    parseU16 l = none ↔ isOptPlusU16 l = false := by
  have condEq : ∀ ds : List Char,
      (decide (ds ≠ []) && ds.all Char.isDigit && decide (digitsVal ds < 65536)) =
      (!ds.isEmpty && ds.all Char.isDigit && decide (digitsVal ds ≤ 65535)) := by
    intro ds
    have e1 : decide (ds ≠ []) = !ds.isEmpty := by cases ds <;> simp
    have e3 : decide (digitsVal ds < 65536) = decide (digitsVal ds ≤ 65535) := by
      by_cases hv : digitsVal ds ≤ 65535 <;> simp [hv, Nat.lt_succ_iff]
    rw [e1, e3]
  have key : ∀ ds : List Char,
      ((if ds ≠ [] && ds.all Char.isDigit && digitsVal ds < 65536 then
          some (digitsVal ds) else none) = none) ↔
        (!ds.isEmpty && ds.all Char.isDigit && digitsVal ds ≤ 65535) = false := by
    intro ds
    rw [show (decide (ds ≠ []) && ds.all Char.isDigit && decide (digitsVal ds < 65536)) =
        (!ds.isEmpty && ds.all Char.isDigit && decide (digitsVal ds ≤ 65535)) from condEq ds]
    by_cases hc : (!ds.isEmpty && ds.all Char.isDigit && decide (digitsVal ds ≤ 65535)) = true
    · simp [hc]
    · rw [if_neg hc]
      simp only [Bool.not_eq_true] at hc
      simp [hc]
  simp only [parseU16, isOptPlusU16]
  by_cases hp : l.head? = some '+'
  · simp only [if_pos hp]
    exact key l.tail
  · simp only [if_neg hp]
    exact key l

/-! ### Claim theorems -/

/-- C1: for every `local_port` and lookup output, `search_for_port` returns
the username set by the nearest preceding login-field (`L`) line before the
first network-name (`n`) line containing `:<local_port>->`, and returns
`none` when no network-name line contains that substring; in particular it
returns `none` on empty output. -/
theorem find_owner_matches_spec (local_port : Nat) (output : List Char) :
    (search_for_port local_port output =
      find_owner_spec (targetOf local_port) (linesOf output)) ∧
    ((∀ l ∈ linesOf output, isMatchingNetLine (targetOf local_port) l = false) →
      search_for_port local_port output = none) ∧
    search_for_port local_port [] = none := by
  refine ⟨search_for_port_eq_spec local_port output, fun h => ?_, rfl⟩
  have htw : (linesOf output).takeWhile
      (fun l => !(isMatchingNetLine (targetOf local_port) l)) = linesOf output :=
    takeWhile_all_true _ _ (fun l hl => by simp [h l hl])
  rw [search_for_port_eq_spec, find_owner_spec, htw, if_pos rfl]

/-- Witness for C1's hypothesis: an output whose only network-name line
does not contain `:9999->` makes the lookup return `none`. -/
theorem find_owner_matches_spec_witness :
    search_for_port 9999 (str "Lalice\nn127.0.0.1:4000->10.0.0.1:80") = none :=
  (find_owner_matches_spec 9999 (str "Lalice\nn127.0.0.1:4000->10.0.0.1:80")).2.1
    (by decide)

/-- C4: the scan stops at the first matching network-name line; if that
line has no preceding login-field line, the result is `none` even when
login lines and further matching records follow it. -/
theorem first_match_wins (local_port : Nat) (output : List Char)
    (pre post : List (List Char)) (m : List Char)
    (hsplit : linesOf output = pre ++ m :: post)
    (hm : isMatchingNetLine (targetOf local_port) m = true)
    (hpre : ∀ l ∈ pre, isMatchingNetLine (targetOf local_port) l = false)
    (hnoL : ∀ l ∈ pre, isLoginLine l = false) :
    search_for_port local_port output = none := by
  rw [search_for_port_eq_spec, find_owner_spec, hsplit]
  rw [takeWhile_append_mid _ pre post m (fun x hx => by simp [hpre x hx]) (by simp [hm])]
  have hlen : ¬ (pre.length = (pre ++ m :: post).length) := by
    simp only [List.length_append, List.length_cons]; omega
  rw [if_neg hlen, lastLoginUser_none pre hnoL]

/-- Witness for C4: the first line matches `:4000->` but no login line
precedes it, so the result is `none` although `Lalice` and a second
matching record follow. -/
theorem first_match_wins_witness :
    search_for_port 4000 (str "xjunk\nn1.2.3.4:4000->5.6.7.8:80\nLalice\nn1.2.3.4:4000->5.6.7.8:90") = none :=
  first_match_wins 4000 _
    [str "xjunk"] [str "Lalice", str "n1.2.3.4:4000->5.6.7.8:90"]
    (str "n1.2.3.4:4000->5.6.7.8:80")
    (by decide) (by decide) (by decide) (by decide)

/-- C9: a line whose first character is neither `L` nor `n` (malformed,
truncated, empty, or any other kind) is skipped without effect — deleting
it does not change the result — and when no network-name line matches, the
scan runs to the end of the output and returns `none`. -/
theorem other_lines_skipped (local_port : Nat) :
    (∀ (out out' l : List Char) (pre post : List (List Char)),
      linesOf out = pre ++ l :: post → linesOf out' = pre ++ post →
      l.head? ≠ some 'L' → l.head? ≠ some 'n' →
      search_for_port local_port out = search_for_port local_port out') ∧
    (∀ out : List Char,
      (∀ l ∈ linesOf out, isMatchingNetLine (targetOf local_port) l = false) →
      search_for_port local_port out = none) := by
  constructor
  · intro out out' l pre post hout hout' hL hn
    rw [search_for_port, search_for_port, hout, hout']
    exact scanLines_skip _ l hL hn pre post none
  · intro out h
    have htw : (linesOf out).takeWhile
        (fun l => !(isMatchingNetLine (targetOf local_port) l)) = linesOf out :=
      takeWhile_all_true _ _ (fun l hl => by simp [h l hl])
    rw [search_for_port, scanLines_characterization, htw, if_pos rfl]

/-- Witness for C9: deleting the malformed line `x:4000->` does not change
the result, and a no-match output scans to the end and yields `none`. -/
theorem other_lines_skipped_witness :
    search_for_port 4000 (str "Lalice\nx:4000->\nn1.2.3.4:4000->b") =
      search_for_port 4000 (str "Lalice\nn1.2.3.4:4000->b") ∧
    search_for_port 4000 (str "Lalice\nnone-of-these\nmatch") = none :=
  ⟨(other_lines_skipped 4000).1 _ _ (str "x:4000->")
      [str "Lalice"] [str "n1.2.3.4:4000->b"] (by decide) (by decide) (by decide) (by decide),
    (other_lines_skipped 4000).2 _ (by decide)⟩

/-- C2: for all `a, b` in `[0, 65535]`, `parse_query` applied to
`"<a>, <b>"` returns `(a, b)` for any amounts of whitespace around each
number and around the comma; the first field is the pair's first component
(bound to `local_port` by the session handler), the second the remote
port. -/
theorem parse_query_wellformed (a b : Nat) (w1 w2 w3 w4 : List Char)
    (ha : a < 65536) (hb : b < 65536)
    (h1 : ∀ c ∈ w1, isWS c = true) (h2 : ∀ c ∈ w2, isWS c = true)
    (h3 : ∀ c ∈ w3, isWS c = true) (h4 : ∀ c ∈ w4, isWS c = true) :
    parse_query ((w1 ++ natToChars a ++ w2) ++ ',' :: (w3 ++ natToChars b ++ w4)) =
      .ok (a, b) := by
  have hdig : ∀ n : Nat, ∀ c ∈ natToChars n, isWS c = false ∧ c ≠ ',' := by
    intro n c hc
    obtain ⟨m, hm, rfl⟩ := natToChars_mem n c hc
    exact ⟨(digitChar_lt_ten m hm).2.2.1, (digitChar_lt_ten m hm).2.2.2.1⟩
  have hf1 : ',' ∉ w1 ++ natToChars a ++ w2 := by
    intro hmem
    simp only [List.mem_append] at hmem
    rcases hmem with (hmem | hmem) | hmem
    · exact isWS_ne_comma (h1 _ hmem) rfl
    · exact (hdig a _ hmem).2 rfl
    · exact isWS_ne_comma (h2 _ hmem) rfl
  have hf2 : ',' ∉ w3 ++ natToChars b ++ w4 := by
    intro hmem
    simp only [List.mem_append] at hmem
    rcases hmem with (hmem | hmem) | hmem
    · exact isWS_ne_comma (h3 _ hmem) rfl
    · exact (hdig b _ hmem).2 rfl
    · exact isWS_ne_comma (h4 _ hmem) rfl
  have hsplit : splitOnChar ',' ((w1 ++ natToChars a ++ w2) ++ ',' :: (w3 ++ natToChars b ++ w4)) =
      [w1 ++ natToChars a ++ w2, w3 ++ natToChars b ++ w4] := by
    rw [splitOnChar_append ',' _ _ hf1, splitOnChar_not_mem ',' _ hf2]
  have ht1 : trim (w1 ++ natToChars a ++ w2) = natToChars a :=
    trim_sandwich w1 (natToChars a) w2 h1 h2 (fun c hc => (hdig a c hc).1)
  have ht2 : trim (w3 ++ natToChars b ++ w4) = natToChars b :=
    trim_sandwich w3 (natToChars b) w4 h3 h4 (fun c hc => (hdig b c hc).1)
  simp only [parse_query, hsplit, List.map_cons, List.map_nil, ht1, ht2,
    parseU16_natToChars a ha, parseU16_natToChars b hb]

/-- Witness for C2 at `a = 4000`, `b = 5000` with single spaces around the
numbers. -/
theorem parse_query_wellformed_witness :
    parse_query ((str " " ++ natToChars 4000 ++ str " ") ++
      ',' :: (str " " ++ natToChars 5000 ++ str " ")) = .ok (4000, 5000) :=
  parse_query_wellformed 4000 5000 (str " ") (str " ") (str " ") (str " ")
    (by decide) (by decide) (by decide) (by decide) (by decide) (by decide)

/-- Counterexample to C3 as stated: `"+80, 80"` splits into two fields
whose first trimmed field `"+80"` is not a decimal unsigned 16-bit integer
with no sign, so the claim demands failure with `InvalidPortError`; the
code instead accepts it (Rust's `u16::from_str` permits a leading `+`).
Moreover a genuinely non-numeric field fails with the propagated
integer-parse error, which is not `InvalidPortError`. -/
theorem parse_query_plus_counterexample :
    (parse_query (str "+80, 80") = .ok (80, 80) ∧
      ((splitOnChar ',' (str "+80, 80")).map trim).length = 2 ∧
      isPlainU16 (trim (str "+80")) = false) ∧
    (parse_query (str "not-a-port, 80") = .error .parseIntError ∧
      QueryError.parseIntError ≠ QueryError.invalidPort) := by
  refine ⟨⟨rfl, by decide, by decide⟩, rfl, by decide⟩

/-- C3 as amended: `parse_query` fails exactly when the comma-split yields
a field count other than two — failing with `InvalidPortError` — or when
there are exactly two fields and some trimmed field is not an optional
leading `+` followed by one or more decimal digits with value at most
65535 — failing with the propagated integer-parse error, a kind distinct
from `InvalidPortError`. -/
theorem parse_query_error_characterization (q : List Char) :
    (parse_query q = .error .invalidPort ↔
      ((splitOnChar ',' q).map trim).length ≠ 2) ∧
    (parse_query q = .error .parseIntError ↔
      ∃ f1 f2, (splitOnChar ',' q).map trim = [f1, f2] ∧
        (isOptPlusU16 f1 = false ∨ isOptPlusU16 f2 = false)) := by
  rcases hsplit : (splitOnChar ',' q).map trim with _ | ⟨f1, _ | ⟨f2, _ | ⟨f3, rest⟩⟩⟩
  · constructor
    · simp [parse_query, hsplit]
    · simp [parse_query, hsplit]
  · constructor
    · simp [parse_query, hsplit]
    · simp [parse_query, hsplit]
  · constructor
    · rcases hp1 : parseU16 f1 with _ | x <;> rcases hp2 : parseU16 f2 with _ | y <;>
        simp [parse_query, hsplit, hp1, hp2]
    · rcases hp1 : parseU16 f1 with _ | x <;> rcases hp2 : parseU16 f2 with _ | y
      · constructor
        · intro _
          exact ⟨f1, f2, rfl, Or.inl ((parseU16_none_iff f1).mp hp1)⟩
        · intro _
          simp [parse_query, hsplit, hp1, hp2]
      · constructor
        · intro _
          exact ⟨f1, f2, rfl, Or.inl ((parseU16_none_iff f1).mp hp1)⟩
        · intro _
          simp [parse_query, hsplit, hp1, hp2]
      · constructor
        · intro _
          exact ⟨f1, f2, rfl, Or.inr ((parseU16_none_iff f2).mp hp2)⟩
        · intro _
          simp [parse_query, hsplit, hp1, hp2]
      · simp only [parse_query, hsplit, hp1, hp2]
        constructor
        · intro h; exact absurd h (by simp)
        · rintro ⟨g1, g2, hg, hbad⟩
          injection hg with hg1 hg'
          injection hg' with hg2 _
          rcases hbad with hbad | hbad
          · have hnone := (parseU16_none_iff g1).mpr hbad
            rw [← hg1, hp1] at hnone
            exact Option.noConfusion hnone
          · have hnone := (parseU16_none_iff g2).mpr hbad
            rw [← hg2, hp2] at hnone
            exact Option.noConfusion hnone
  · constructor
    · simp [parse_query, hsplit]
    · simp [parse_query, hsplit]

/-- C5: the collaborator target is `4TCP@<ipv4>:<port>` for IPv4 peers and
for IPv4-mapped IPv6 peers (unwrapping the embedded IPv4 address), and
`6TCP@[<ipv6>]:<port>` for every other IPv6 peer; in particular the
IPv4-mapped peer `::ffff:192.0.2.5` with remote_port 80 yields
`4TCP@192.0.2.5:80`. -/
theorem lsof_target_form (port a b c d s0 s1 s2 s3 s4 s5 s6 s7 : Nat) :
    lsof_target_arg port (.v4 a b c d) =
      str "4TCP@" ++ displayV4 a b c d ++ ':' :: natToChars port ∧
    (s0 = 0 ∧ s1 = 0 ∧ s2 = 0 ∧ s3 = 0 ∧ s4 = 0 ∧ s5 = 0xffff →
      lsof_target_arg port (.v6 s0 s1 s2 s3 s4 s5 s6 s7) =
        str "4TCP@" ++ displayV4 (s6 / 256) (s6 % 256) (s7 / 256) (s7 % 256) ++
          ':' :: natToChars port) ∧
    (¬ (s0 = 0 ∧ s1 = 0 ∧ s2 = 0 ∧ s3 = 0 ∧ s4 = 0 ∧ s5 = 0xffff) →
      lsof_target_arg port (.v6 s0 s1 s2 s3 s4 s5 s6 s7) =
        str "6TCP@[" ++ displayV6 s0 s1 s2 s3 s4 s5 s6 s7 ++ str "]:" ++
          natToChars port) ∧
    lsof_target_arg 80 (.v6 0 0 0 0 0 0xffff 0xC000 0x0205) = str "4TCP@192.0.2.5:80" := by
  refine ⟨rfl, ?_, ?_, by decide⟩
  · rintro ⟨rfl, rfl, rfl, rfl, rfl, rfl⟩
    simp [lsof_target_arg, toIpv4]
  · intro hnm
    simp only [lsof_target_arg, toIpv4]
    by_cases hc : s0 = 0 ∧ s1 = 0 ∧ s2 = 0 ∧ s3 = 0 ∧ s4 = 0 ∧ (s5 = 0 ∨ s5 = 0xffff)
    · rw [if_pos hc]
      simp [hnm]
    · rw [if_neg hc]

/-- Witness for C5: the mapped address takes the IPv4 branch and a plain
IPv6 address (`2001:db8::1`) takes the bracketed IPv6 branch. -/
theorem lsof_target_form_witness :
    lsof_target_arg 80 (.v6 0 0 0 0 0 0xffff 0xC000 0x0205) =
      str "4TCP@" ++ displayV4 (0xC000 / 256) (0xC000 % 256) (0x0205 / 256) (0x0205 % 256) ++
        ':' :: natToChars 80 ∧
    lsof_target_arg 80 (.v6 0x2001 0xdb8 0 0 0 0 0 1) =
      str "6TCP@[" ++ displayV6 0x2001 0xdb8 0 0 0 0 0 1 ++ str "]:" ++ natToChars 80 :=
  ⟨(lsof_target_form 80 0 0 0 0 0 0 0 0 0 0xffff 0xC000 0x0205).2.1
      (by decide),
    (lsof_target_form 80 0 0 0 0 0x2001 0xdb8 0 0 0 0 0 1).2.2.1
      (by decide)⟩

/-- C6: for a query that yields a response (any read line, with the lookup
succeeding), the session handler sends exactly one response line, echoing
the query verbatim: `USERID : UNIX : <username>` on a match,
`ERROR : NO-USER` on no match, and `ERROR : INVALID-PORT` when parsing
fails (each with the trailing `\r`). -/
theorem one_response_per_query (q out : List Char) :
    (handle_client (.line q) (.ok out)).1 = [expectedResponse q out] := by
  cases hp : parse_query q with
  | error e => simp [handle_client, expectedResponse, hp]
  | ok p =>
    obtain ⟨lp, rp⟩ := p
    cases hs : search_for_port lp out <;>
      simp [handle_client, expectedResponse, hp, hs]

/-- C7: when the lookup invocation fails, the session terminates without
sending any response line (ending in the lookup error), while a parse
failure is always answered even if the lookup would have failed. -/
theorem lookup_failure_silent (q : List Char) :
    (∀ lp rp, parse_query q = .ok (lp, rp) →
      handle_client (.line q) (.error ()) = ([], .error .lookupFailed)) ∧
    (∀ e, parse_query q = .error e →
      (handle_client (.line q) (.error ())).1 =
        [q ++ str " : ERROR : INVALID-PORT\r"]) := by
  constructor
  · intro lp rp hp
    simp [handle_client, hp]
  · intro e hp
    simp [handle_client, hp]

/-- Witness for C7: a well-formed query gets no response when the lookup
fails; a malformed query is still answered with `INVALID-PORT`. -/
theorem lookup_failure_silent_witness :
    handle_client (.line (str "4000, 5000")) (.error ()) = ([], .error .lookupFailed) ∧
    (handle_client (.line (str "not-a-port, 80")) (.error ())).1 =
      [str "not-a-port, 80" ++ str " : ERROR : INVALID-PORT\r"] :=
  ⟨(lookup_failure_silent (str "4000, 5000")).1 4000 5000 rfl,
    (lookup_failure_silent (str "not-a-port, 80")).2 .parseIntError rfl⟩

/-- C8: input with no line terminator yields no query; any line the codec
delivers is at most 1024 bytes (longer input is a framing failure); and a
session whose read produced no line terminates silently, sending nothing,
with the `NoQuery` error — never an `ERROR` response. -/
theorem framing_failure_silent :
    (∀ raw : List Char, '\n' ∉ raw → readQuery raw = .noLine) ∧
    (∀ raw line : List Char, readQuery raw = .line line → line.length ≤ 1024) ∧
    (∀ r, handle_client .noLine r = ([], .error .noQuery)) := by
  refine ⟨?_, ?_, fun r => rfl⟩
  · intro raw hmem
    have htw : raw.takeWhile (fun c => c ≠ '\n') = raw :=
      takeWhile_all_true _ raw (fun c hc => by
        simp only [decide_eq_true_eq]
        exact fun hEq => hmem (hEq ▸ hc))
    simp only [readQuery]
    rw [htw, if_pos rfl]
  · intro raw line h
    simp only [readQuery] at h
    by_cases hlen : (raw.takeWhile (fun c => c ≠ '\n')).length = raw.length
    · rw [if_pos hlen] at h
      exact ReadResult.noConfusion h
    · rw [if_neg hlen] at h
      by_cases hmax :
          (if (raw.takeWhile (fun c => c ≠ '\n')).getLast? = some '\r' then
            (raw.takeWhile (fun c => c ≠ '\n')).dropLast
          else raw.takeWhile (fun c => c ≠ '\n')).length > 1024
      · rw [if_pos hmax] at h
        exact ReadResult.noConfusion h
      · rw [if_neg hmax] at h
        injection h with h
        rw [← h]
        omega

/-- Witness for C8: unterminated input produces no query line; a short
terminated line is within the limit; the no-line session is silent. -/
theorem framing_failure_silent_witness :
    readQuery (str "4000, 5000") = .noLine ∧
    (str "ab").length ≤ 1024 ∧
    handle_client .noLine (.ok []) = ([], .error .noQuery) :=
  ⟨framing_failure_silent.1 (str "4000, 5000") (by decide),
    framing_failure_silent.2.1 (str "ab\n") (str "ab") (by decide),
    framing_failure_silent.2.2 (.ok [])⟩

/-- C10: a login line that is just `L` (or `L` followed by whitespace)
sets the current user to the empty string, so the lookup returns
`some ""` and the handler sends a `USERID` response with an empty
username field. -/
theorem empty_login_line (port rp : Nat) (ws nline q out : List Char)
    (hws : ∀ c ∈ ws, isWS c = true)
    (hn : nline.head? = some 'n')
    (hc : containsSub (targetOf port) nline = true)
    (hq : parse_query q = .ok (port, rp))
    (hout : linesOf out = ['L' :: ws, nline]) :
    search_for_port port out = some [] ∧
    (handle_client (.line q) (.ok out)).1 =
      [q ++ str " : USERID : UNIX : " ++ ['\r']] := by
  have hsearch : search_for_port port out = some [] := by
    rw [search_for_port, hout]
    have hL : ('L' :: ws).head? = some 'L' := rfl
    have hnL : ¬ (nline.head? = some 'L') := by
      rw [hn]
      intro hEq
      injection hEq with hEq
      exact absurd hEq (by decide)
    simp only [scanLines, hL, if_pos rfl, List.tail_cons]
    rw [trim_all_ws ws hws]
    simp [scanLines, hnL, hn, hc]
  refine ⟨hsearch, ?_⟩
  simp [handle_client, hq, hsearch]

/-- Witness for C10: output `"L \nn1.2.3.4:4000->x"` for local port 4000
with query `"4000, 80"`. -/
theorem empty_login_line_witness :
    search_for_port 4000 (str "L \nn1.2.3.4:4000->x") = some [] ∧
    (handle_client (.line (str "4000, 80")) (.ok (str "L \nn1.2.3.4:4000->x"))).1 =
      [str "4000, 80" ++ str " : USERID : UNIX : " ++ ['\r']] :=
  empty_login_line 4000 80 [' '] (str "n1.2.3.4:4000->x") (str "4000, 80")
    (str "L \nn1.2.3.4:4000->x")
    (by decide) (by decide) (by decide) rfl (by decide)

end Whoisit
